import Mathlib

/-!
# Verification of the UniFi Ansible collection's reconciliation core

A shallow embedding, in Lean 4, of the parts of the
`gmeiner.unifi` Ansible collection that its specification talks about:

* `plugins/module_utils/unifi.py` — the reconciliation engine
  (`UniFi.update_item`, `UniFi.update_list`, `UniFi.ensure_item`,
  `UniFi.set_missing` / `UniFi.pop_missing`);
* `plugins/httpapi/httpapi.py` — the transport adapter
  (`HttpApi.send_request`, `HttpApi.__check_unifi_os`,
  `HttpApi.handle_httperror`);
* `plugins/module_utils/logging.py` — the log aggregator (`Logger.join`).

Python dicts are modelled as association lists with unique keys
(`Item`), Python values by the closed `Value` type covering the value
shapes the engine manipulates (strings, numbers, booleans, and the
list-of-strings stored under the `__missing__` annotation key).
Mutating methods are modelled as functions returning the new value.
-/

/-- A Python value as it occurs in the items handled by the engine:
strings, numbers, booleans, and lists of strings (the shape stored by
`UniFi.set_missing` under the `__missing__` key). -/
inductive Value where
  | str (s : String)
  | num (n : Int)
  | bool (b : Bool)
  | strList (l : List String)
deriving DecidableEq, Repr

/-- An item (a Python dict): an association list from field names to
values, with the dict invariant that keys are unique. -/
abbrev Item := List (String × Value)

namespace Item

/-- Python `item[k]` / `item.get(k)`: the value stored under `k`, if any. -/
def get (it : Item) (k : String) : Option Value :=
  match it with
  | [] => none
  | (k', v) :: rest => if k' = k then some v else get rest k

/-- Python `item[k] = v`: overwrite the value at `k` in place, or append the
pair if the key is new (Python dicts keep insertion order). -/
def set (it : Item) (k : String) (v : Value) : Item :=
  match it with
  | [] => [(k, v)]
  | (k', v') :: rest =>
    if k' = k then (k, v) :: rest else (k', v') :: set rest k v

/-- Python `del item[k]`: remove the key from the dict. -/
def eraseKey (it : Item) (k : String) : Item :=
  match it with
  | [] => []
  | (k', v') :: rest =>
    if k' = k then eraseKey rest k else (k', v') :: eraseKey rest k

/-- The key set of the dict, in insertion order. -/
def keys (it : Item) : List String := it.map (·.1)

end Item

/-- The reserved annotation key `UniFi.__MISSING_KEY` =
`'__missing__'`. -/
def missingKey : String := "__missing__"

/-- Embedding of `UniFi.set_missing(item, attribute)`: append the attribute to the
list stored under the `__missing__` key (creating it if needed),
returning the updated item. -/
def setMissing (item : Item) (attr : String) : Item :=
  let missing := match Item.get item missingKey with
    | some (.strList l) => l
    | _ => []
  Item.set item missingKey (.strList (missing ++ [attr]))

/-- The list half of `UniFi.pop_missing(item)`:
`item.pop('__missing__', [])`, i.e. the stored annotation list (empty
when the key is absent). -/
def getMissing (item : Item) : List String :=
  match Item.get item missingKey with
  | some (.strList l) => l
  | _ => []

/-- The item half of `UniFi.pop_missing(item)`: the item with the
`__missing__` key removed. -/
def stripMissing (item : Item) : Item := Item.eraseKey item missingKey

/-! ## The reconciliation engine: `UniFi.update_item` / `UniFi.update_list`

`update_item` mutates `existing_item` in place and returns a change
flag; here it returns the pair `(changed, updated existing item)`.
The optional `preprocess_update` hook of the source rewrites the input
item from the final match before merging; it is modelled as a function
from the (input, existing) pair to the rewritten input item. -/

/-- One iteration of the first loop of `update_item`:
`if key not in existing_item or existing_item[key] != value:
changed = True; existing_item[key] = value`. -/
def owStep (acc : Bool × Item) (kv : String × Value) : Bool × Item :=
  if Item.get acc.2 kv.1 != some kv.2 then (true, Item.set acc.2 kv.1 kv.2)
  else acc

/-- One iteration of the second loop of `update_item`:
`if key in existing_item: changed = True; del existing_item[key]`. -/
def raStep (acc : Bool × Item) (k : String) : Bool × Item :=
  if (Item.get acc.2 k).isSome then (true, Item.eraseKey acc.2 k) else acc

/-- Embedding of `UniFi.update_item(input_item, existing_item, require_absent,
preprocess_update)`.  First loop: every field of the input item is
overwritten onto the existing item, flagging a change whenever the key
was absent or bound to a different value.  Second loop: every name in
`require_absent` that is present on the existing item is deleted,
flagging a change. -/
def updateItem (inputItem existingItem : Item) (requireAbsent : List String)
    (preprocessUpdate : Option (Item → Item → Item)) : Bool × Item :=
  let inputItem := match preprocessUpdate with
    | some f => f inputItem existingItem
    | none => inputItem
  requireAbsent.foldl raStep (inputItem.foldl owStep (false, existingItem))

/-- Python's `str.lower()`: lower-case every character. -/
def strLower (s : String) : String := String.mk (s.data.map Char.toLower)

/-- The default comparison of `UniFi.update_list._do_compare` when no
custom compare function is given: both items carry a `name` field and
the names are equal case-insensitively
(`input_item['name'].lower() == existing_item['name'].lower()`; the
source calls `.lower()` on the values, so names are strings there and
a non-string `name` cannot match). -/
def nameMatch (inputItem existingItem : Item) : Bool :=
  match Item.get inputItem "name", Item.get existingItem "name" with
  | some (.str a), some (.str b) => strLower a == strLower b
  | _, _ => false

/-- Embedding of `UniFi.update_list._do_compare(existing_item, compare)`: the custom
compare function applied to `(input_item, existing_item)` when given,
else the case-insensitive name comparison. -/
def doCompare (inputItem existingItem : Item)
    (compare : Option (Item → Item → Bool)) : Bool :=
  match compare with
  | some f => f inputItem existingItem
  | none => nameMatch inputItem existingItem

/-- The matching phase of `UniFi.update_list` (lines 457–465): filter
the existing items with `_do_compare` under the custom comparator; if
that yields nothing and a custom comparator was supplied, fall back to
filtering by the default name comparison.  There is no further
fallback. -/
def findMatches (inputItem : Item) (existingItems : List Item)
    (compare : Option (Item → Item → Bool)) : List Item :=
  let matchingItems := existingItems.filter
    (fun x => doCompare inputItem x compare)
  if matchingItems.isEmpty && compare.isSome then
    existingItems.filter (fun x => doCompare inputItem x none)
  else matchingItems

/-- The `state` argument of `UniFi.update_list`: the module accepts the
strings `'present'`, `'absent'`, `'ignore'`, the booleans `True` /
`False`, `None`, and raises `ValueError` on anything else (modelled by
`sOther`). -/
inductive StateParam where
  | sPresent | sTrue | sAbsent | sFalse | sIgnore | sNone
  | sOther (s : String)
deriving DecidableEq, Repr

/-- Embedding of `UniFi.update_list(input_item, existing_items, state, compare,
preprocess_update)` returning `(ignored_items, changed_items,
deleted_items)`, or the message of the exception the source raises
(`ValueError` for an unknown state; `KeyError` when a matched item
lacks `_id` on the delete path). -/
def updateList (inputItem : Item) (existingItems : List Item)
    (state : StateParam) (compare : Option (Item → Item → Bool))
    (preprocessUpdate : Option (Item → Item → Item)) :
    Except String (List Item × List Item × List Value) :=
  let matchingItems := findMatches inputItem existingItems compare
  match state with
  | .sIgnore | .sNone =>
    -- every matching item is recorded as ignored
    .ok (matchingItems, [], [])
  | .sPresent | .sTrue =>
    -- require_absent = UniFi.pop_missing(input_item)
    let requireAbsent := getMissing inputItem
    let inputItem := stripMissing inputItem
    if matchingItems.isEmpty then
      .ok ([], [inputItem], [])
    else
      .ok ([], matchingItems.filterMap (fun m =>
        let r := updateItem inputItem m requireAbsent preprocessUpdate
        if r.1 then some r.2 else none), [])
  | .sAbsent | .sFalse =>
    -- deleted_items.append(matching_item['_id'])
    (matchingItems.mapM (fun m =>
      match Item.get m "_id" with
      | some v => Except.ok v
      | none => Except.error "KeyError: _id")).map
      (fun ids => ([], [], ids))
  | .sOther s =>
    .error ("Got unexpected value for requested state: " ++ s)

/-! ## The reconciliation driver: `UniFi.ensure_item`

Only the part after `update_list` is modelled: the three result loops,
the mutating sends, and the `changed` flag.  `self.send(item_type=...,
data=item)` is recorded as `SentCall.withData` (the transport decides
POST vs PUT from the payload), `self.send(item_type=..., _id=item)` as
`SentCall.withId` (a DELETE).  The server's returned representation of
a sent item is abstracted as `serverEcho`. -/

/-- A mutating call issued by `ensure_item`. -/
inductive SentCall where
  | withData (data : Item)
  | withId (id : Value)
deriving DecidableEq, Repr

/-- An entry appended to the per-kind result list by `_set_result`. -/
inductive ResultEntry where
  | item (it : Item)
  | id (v : Value)
deriving DecidableEq, Repr

/-- Observable outcome of one `ensure_item` run: the mutating calls
actually sent, the per-kind result list, and the final value of
`result['changed']`. -/
structure RunOutcome where
  sent : List SentCall
  results : List ResultEntry
  changed : Bool
deriving DecidableEq, Repr

/-- Embedding of `UniFi.ensure_item` (lines 542–568), given the desired item, the
list the controller returned, the requested state, check mode, and the
prior value of `result['changed']`.  The loops mirror the source
exactly; in particular the delete loop performs the send but executes
`changed_items = True` — an assignment to the wrong variable — so it
never touches the local `changed` flag that is OR'd into
`result['changed']` afterwards. -/
def ensureItem (item : Item) (existingItems : List Item)
    (state : StateParam) (compare : Option (Item → Item → Bool))
    (preprocessUpdate : Option (Item → Item → Item))
    (checkMode : Bool) (serverEcho : Item → Item)
    (resultChanged : Bool) : Except String RunOutcome :=
  match updateList item existingItems state compare preprocessUpdate with
  | .error e => .error e
  | .ok (ignoredItems, changedItems, deletedItems) =>
    -- changed = False; for item in ignored_items: _set_result(item)
    let acc0 : List SentCall × List ResultEntry × Bool :=
      ([], ignoredItems.map .item, false)
    -- for item in changed_items:
    --     if not self.check_mode: item = self.send(...); changed = True
    --     _set_result(item)
    let acc1 := changedItems.foldl
      (fun (acc : List SentCall × List ResultEntry × Bool) it =>
        if !checkMode then
          (acc.1 ++ [.withData it], acc.2.1 ++ [.item (serverEcho it)], true)
        else
          (acc.1, acc.2.1 ++ [.item it], acc.2.2))
      acc0
    -- for item in deleted_items:
    --     if not self.check_mode: self.send(...); changed_items = True
    --     _set_result(item)
    -- note: the assignment is to changed_items, not to changed
    let acc2 := deletedItems.foldl
      (fun (acc : List SentCall × List ResultEntry × Bool) v =>
        if !checkMode then
          (acc.1 ++ [.withId v], acc.2.1 ++ [.id v], acc.2.2)
        else
          (acc.1, acc.2.1 ++ [.id v], acc.2.2))
      acc1
    -- self.__result['changed'] = (changed or self.__result['changed'])
    .ok { sent := acc2.1, results := acc2.2.1,
          changed := acc2.2.2 || resultChanged }

/-! ## The transport adapter: `HttpApi.send_request`

`data` may be a dict, a pre-serialized string, or `None`; Python
truthiness of the `_id` values matters (`if not _id`, `if _id:`), so it
is modelled explicitly.  `json_dumps` is a content-preserving
serialization; the request body is therefore kept as the structured
payload that would be serialized. -/

/-- Python truthiness of a `Value`. -/
def truthy : Value → Bool
  | .str s => s != ""
  | .num n => n != 0
  | .bool b => b
  | .strList l => !l.isEmpty

/-- Python truthiness of an optional value (`None` is falsy). -/
def truthyOpt : Option Value → Bool
  | none => false
  | some v => truthy v

/-- Python `str()` of a `Value`, as used by `'{id}'.format(...)` when
the id is interpolated into the request path (ids are strings in
practice). -/
def valueText : Value → String
  | .str s => s
  | .num n => toString n
  | .bool b => if b then "True" else "False"
  | .strList l =>
    "[" ++ String.intercalate ", " (l.map (fun s => "\x27" ++ s ++ "\x27")) ++ "]"

/-- The `data` argument of `send_request`: a dict or a pre-serialized
string (the `isinstance(data, str)` test in the source skips the id
extraction for strings). -/
inductive PyData where
  | dict (d : Item)
  | str (s : String)
deriving DecidableEq, Repr

/-- The request handed to `Connection.send`: HTTP method, assembled
URI, and the body (still structured; the source serializes truthy dict
bodies with `json_dumps` just before sending). -/
structure Request where
  method : String
  uri : String
  body : Option PyData
deriving DecidableEq, Repr

/-- The proxy segment computed by `send_request`:
`'/proxy/{proxy}'` when the controller is the unifi-os variant and a
(non-empty, hence truthy) proxy was requested, else the empty
string. -/
def proxySegment (isUnifiOs : Bool) (proxy : Option String) : String :=
  match proxy with
  | some p => if isUnifiOs && p != "" then "/proxy/" ++ p else ""
  | none => ""

/-- Embedding of `HttpApi.send_request(data, path, proxy, path_prefix, site, _id,
**message_kwargs)` (lines 148–194), with the controller variant
already probed (`isUnifiOs`).  The source's defaults are
`path_prefix='/api/s/'`, `site='default'`, `_id=None`; `methodOverride`
models `message_kwargs['method']`.  Returns the request passed to
`Connection.send`. -/
def sendRequest (isUnifiOs : Bool) (data : Option PyData) (path : String)
    (proxy : Option String) (pathPfx : String) (site : String)
    (idArg : Option Value) (methodOverride : Option String) : Request :=
  -- if data is not None and not isinstance(data, str):
  --     if not _id and '_id' in data:
  --         _id = data['_id']
  --         if len(data) == 1: data = None
  let step : Option PyData × Option Value :=
    match data with
    | some (.dict d) =>
      if !truthyOpt idArg && (Item.get d "_id").isSome then
        if d.length == 1 then (none, Item.get d "_id")
        else (some (.dict d), Item.get d "_id")
      else (some (.dict d), idArg)
    | other => (other, idArg)
  let data := step.1
  let idv := step.2
  -- decision matrix on (data is not None, truthiness of _id)
  let decided : String × Bool :=
    match data with
    | some _ => if truthyOpt idv then ("PUT", true) else ("POST", false)
    | none => if truthyOpt idv then ("DELETE", true) else ("GET", false)
  -- if 'method' in message_kwargs: method = message_kwargs['method']
  let method := match methodOverride with
    | some m => m
    | none => decided.1
  -- path = path_template.format(proxy=..., path_prefix=..., site=..., path=..., id=_id)
  let uri := proxySegment isUnifiOs proxy ++ pathPfx ++ site ++ path
    ++ (if decided.2 then "/" ++ valueText (idv.getD (.str "")) else "")
  { method := method, uri := uri, body := data }

/-- Modelled from the amended claim for the method matrix of
`send_request`: an explicit method override always wins; otherwise,
with a dict payload, a truthy explicit `_id` argument gives PUT; with
no truthy explicit id, an `_id` field inside the payload is consulted —
if it is the payload's only key the payload is consumed for its id and
the request is a DELETE (a GET when that id is empty), otherwise a
truthy embedded id gives PUT and a falsy one POST; a payload with no
embedded id gives POST; without a payload, a truthy id gives DELETE and
no id gives GET. -/
def claimMethod (data : Option PyData) (idArg : Option Value)
    (methodOverride : Option String) : String :=
  match methodOverride with
  | some m => m
  | none =>
    match data with
    | some (.dict d) =>
      if truthyOpt idArg then "PUT"
      else
        match Item.get d "_id" with
        | some i =>
          if d.length == 1 then (if truthy i then "DELETE" else "GET")
          else (if truthy i then "PUT" else "POST")
        | none => "POST"
    | some (.str _) => if truthyOpt idArg then "PUT" else "POST"
    | none => if truthyOpt idArg then "DELETE" else "GET"

/-! ## The transport adapter: variant probe and error handling -/

/-- The connection-scoped state of `HttpApi`: the cached
`is_unifi_os` option (`None` until probed) and the list of currently
masked HTTP error codes (`self.__masked_errors`, initially empty). -/
structure ConnState where
  isUnifiOs : Option Bool
  maskedErrors : List Nat
deriving DecidableEq, Repr

/-- The state right after `HttpApi.__init__`. -/
def initialConnState : ConnState :=
  { isUnifiOs := none, maskedErrors := [] }

/-- The masked-error list in force while the variant probe's GET
`/api/system` is in flight: the current list with 400 and 401
appended. -/
def probeMasked (st : ConnState) : List Nat :=
  st.maskedErrors ++ [400, 401]

/-- Embedding of `HttpApi.__check_unifi_os` (lines 74–86): a no-op when the variant
is cached; otherwise mask 400 and 401, issue the probe (whose HTTP
status is `probeStatus`), set `is_unifi_os` to whether the status
equals 200, and remove 400 and 401 again (`list.remove` drops the
first occurrence). -/
def checkUnifiOs (st : ConnState) (probeStatus : Nat) : ConnState :=
  if st.isUnifiOs.isSome then st
  else
    { isUnifiOs := some (probeStatus == 200),
      maskedErrors := ((probeMasked st).erase 400).erase 401 }

/-- Outcome of `HttpApi.handle_httperror`: a masked code returns the
exception object itself (a valid pass-through response); an unmasked
code that the Ansible base class intercepts (e.g. the 401 re-login
path) yields the base class's boolean; otherwise the composed error is
raised. -/
inductive HandleResult where
  | maskedPassThrough
  | frameworkHandled (b : Bool)
  | raised (message : String)
deriving DecidableEq, Repr

/-- Python `str()` of a `urllib.error.HTTPError`. -/
def httpErrorStr (code : Nat) (reason : String) : String :=
  "HTTP Error " ++ toString code ++ ": " ++ reason

/-- Embedding of `HttpApi.handle_httperror(exc)` (lines 263–296).  `superHandle`
models `HttpApiBase.handle_httperror` (external framework code):
`some b` when the base class intercepts the code, `none` when it
returns the exception unchanged — in which case this plugin raises
`Exception('Controller at {path} returned {exc}{message}')` with the
response body read into `message`. -/
def handleHttpError (masked : List Nat) (superHandle : Nat → Option Bool)
    (code : Nat) (path : String) (reason : String) (body : String) :
    HandleResult :=
  if code ∈ masked then .maskedPassThrough
  else
    match superHandle code with
    | some b => .frameworkHandled b
    | none =>
      .raised ("Controller at " ++ path ++ " returned "
        ++ httpErrorStr code reason ++ body)

/-! ## The log aggregator: `Logger.join`

A log entry is `{'timestamp': <point in time>, 'level': <level name>,
'message': <text>}`; timestamps are modelled by their order type
(`Nat`).  `Logger.join` flattens its argument lists, sorts by
timestamp with Python's `list.sort` — a stable sort — and then maps
each timestamp to its display string.  The stable sort is modelled by
a stable insertion sort. -/

/-- A log entry as built by `Logger.__log`. -/
structure LogEntry where
  timestamp : Nat
  level : String
  message : String
deriving DecidableEq, Repr

/-- A log entry after `Logger.join` rewrote the timestamp to
`str(datetime.fromtimestamp(...))`. -/
structure DisplayEntry where
  timestamp : String
  level : String
  message : String
deriving DecidableEq, Repr

/-- Insert an entry into a list, before the first entry with a
timestamp at least as large (so an earlier entry stays ahead of
later entries with the same timestamp). -/
def insertLog (e : LogEntry) : List LogEntry → List LogEntry
  | [] => [e]
  | x :: xs =>
    if e.timestamp ≤ x.timestamp then e :: x :: xs
    else x :: insertLog e xs

/-- The stable sort by timestamp performed by
`logs.sort(key=lambda x: x['timestamp'])`. -/
def sortLogs : List LogEntry → List LogEntry
  | [] => []
  | x :: xs => insertLog x (sortLogs xs)

/-- The flatten-and-sort core of `Logger.join`:
`[log_entry for log in logs for log_entry in log]` followed by the
stable sort by timestamp. -/
def joinEntries (logs : List (List LogEntry)) : List LogEntry :=
  sortLogs logs.flatten

/-- Embedding of `Logger.join(*logs)`: the sorted entries with each timestamp
converted to its display string (`display` models
`str(datetime.fromtimestamp(...))`). -/
def Logger.join (display : Nat → String)
    (logs : List (List LogEntry)) : List DisplayEntry :=
  (joinEntries logs).map (fun e =>
    { timestamp := display e.timestamp, level := e.level,
      message := e.message })

/-- Modelled from the amended claim for the matching order of
`update_list`: the explicit custom comparator is tried first when
supplied; when it yields no match the engine falls back to the
case-insensitive name comparison; there is no id-equality fallback.
The first comparator that yields any match determines the full match
set. -/
def specMatches (inputItem : Item) (existingItems : List Item)
    (compare : Option (Item → Item → Bool)) : List Item :=
  match compare with
  | some f =>
    let custom := existingItems.filter (fun x => f inputItem x)
    if custom.isEmpty then
      existingItems.filter (fun x => nameMatch inputItem x)
    else custom
  | none => existingItems.filter (fun x => nameMatch inputItem x)

/-! # Helper lemmas -/

theorem Item.get_set (it : Item) (k k' : String) (v : Value) :
    Item.get (Item.set it k v) k' = if k' = k then some v else Item.get it k' := by
  induction it with
  | nil =>
    by_cases h : k = k'
    · subst h; simp [Item.set, Item.get]
    · simp only [Item.set, Item.get, if_neg h, if_neg (fun hh : k' = k => h hh.symm)]
  | cons kv rest ih =>
    obtain ⟨k0, v0⟩ := kv
    by_cases h0 : k0 = k
    · subst h0
      by_cases h : k0 = k'
      · subst h; simp [Item.set, Item.get]
      · simp only [Item.set, if_pos rfl, Item.get, if_neg h,
          if_neg (fun hh : k' = k0 => h hh.symm)]
    · by_cases h : k0 = k'
      · subst h
        simp only [Item.set, if_neg h0, Item.get, if_pos rfl]
        simp only [if_true]
      · simp only [Item.set, if_neg h0, Item.get, if_neg h]
        rw [ih]

theorem Item.mem_of_get (d : Item) (k : String) (v : Value)
    (h : Item.get d k = some v) : (k, v) ∈ d := by
  induction d with
  | nil => simp [Item.get] at h
  | cons kv rest ih =>
    obtain ⟨k0, v0⟩ := kv
    by_cases h0 : k0 = k
    · subst h0
      simp [Item.get] at h
      subst h
      exact List.mem_cons_self _ _
    · simp only [Item.get, if_neg h0] at h
      exact List.mem_cons_of_mem _ (ih h)

theorem Item.get_of_mem (d : Item) (hnd : d.keys.Nodup) (k : String) (v : Value)
    (h : (k, v) ∈ d) : Item.get d k = some v := by
  induction d with
  | nil => simp at h
  | cons kv rest ih =>
    obtain ⟨k0, v0⟩ := kv
    simp only [Item.keys, List.map_cons, List.nodup_cons] at hnd
    rcases List.mem_cons.mp h with h1 | h1
    · simp only [Prod.mk.injEq] at h1
      obtain ⟨hk, hv⟩ := h1
      subst hk; subst hv
      simp [Item.get]
    · by_cases h0 : k0 = k
      · subst h0
        exact absurd (List.mem_map.mpr ⟨(k0, v), h1, rfl⟩) hnd.1
      · simp only [Item.get, if_neg h0]
        exact ih hnd.2 h1

theorem Item.get_eraseKey (it : Item) (k k' : String) :
    Item.get (Item.eraseKey it k) k' = if k' = k then none else Item.get it k' := by
  induction it with
  | nil => simp [Item.eraseKey, Item.get]
  | cons kv rest ih =>
    obtain ⟨k0, v0⟩ := kv
    by_cases h0 : k0 = k
    · subst h0
      rw [show Item.eraseKey ((k0, v0) :: rest) k0 = Item.eraseKey rest k0 from by
        simp [Item.eraseKey]]
      rw [ih]
      by_cases h : k' = k0
      · simp [h]
      · simp only [if_neg h, Item.get, if_neg (fun hh : k0 = k' => h hh.symm)]
    · rw [show Item.eraseKey ((k0, v0) :: rest) k
          = (k0, v0) :: Item.eraseKey rest k from by simp [Item.eraseKey, h0]]
      by_cases h : k0 = k'
      · subst h
        simp only [Item.get, if_pos rfl]
        rw [if_neg (fun hh : k0 = k => h0 hh)]
        simp [Item.get]
      · simp only [Item.get, if_neg h]
        rw [ih]

theorem owFold_true (d : Item) : ∀ (acc : Bool × Item), acc.1 = true →
    (d.foldl owStep acc).1 = true := by
  induction d with
  | nil => intro acc h; simpa using h
  | cons kv rest ih =>
    intro acc h
    simp only [List.foldl_cons]
    apply ih
    simp only [owStep]
    split
    · rfl
    · exact h

theorem owFold_get_notMem (d : Item) : ∀ (acc : Bool × Item) (k : String),
    ¬ k ∈ d.keys → Item.get (d.foldl owStep acc).2 k = Item.get acc.2 k := by
  induction d with
  | nil => intro acc k _; rfl
  | cons kv rest ih =>
    intro acc k hk
    simp only [Item.keys, List.map_cons, List.mem_cons, not_or] at hk
    simp only [List.foldl_cons]
    rw [ih _ k (by simpa [Item.keys] using hk.2)]
    simp only [owStep]
    split
    · rw [Item.get_set, if_neg hk.1]
    · rfl

theorem owFold_get_mem (d : Item) : ∀ (acc : Bool × Item) (k : String) (v : Value),
    d.keys.Nodup → Item.get d k = some v →
    Item.get (d.foldl owStep acc).2 k = some v := by
  induction d with
  | nil => intro acc k v _ h; simp [Item.get] at h
  | cons kv rest ih =>
    intro acc k v hnd hget
    obtain ⟨k0, v0⟩ := kv
    simp only [Item.keys, List.map_cons, List.nodup_cons] at hnd
    by_cases h : k0 = k
    · subst h
      simp [Item.get] at hget
      subst hget
      simp only [List.foldl_cons]
      rw [owFold_get_notMem rest _ k0 (by simpa [Item.keys] using hnd.1)]
      simp only [owStep]
      split
      · rw [Item.get_set, if_pos rfl]
      · next heq =>
        simpa using heq
    · simp only [Item.get, if_neg h] at hget
      simp only [List.foldl_cons]
      exact ih _ k v hnd.2 hget

theorem owFold_changed (d : Item) : ∀ (m : Item) (b : Bool),
    (d.foldl owStep (b, m)).1 = true ↔
      b = true ∨ ∃ kv, kv ∈ d ∧ Item.get m kv.1 ≠ some kv.2 := by
  induction d with
  | nil => intro m b; simp
  | cons kv rest ih =>
    intro m b
    obtain ⟨k0, v0⟩ := kv
    simp only [List.foldl_cons, owStep]
    by_cases h : Item.get m k0 = some v0
    · rw [if_neg (by simp [h] : ¬ (Item.get m k0 != some v0) = true)]
      rw [ih]
      constructor
      · rintro (hb | ⟨kv, hmem, hne⟩)
        · exact Or.inl hb
        · exact Or.inr ⟨kv, List.mem_cons_of_mem _ hmem, hne⟩
      · rintro (hb | ⟨kv, hmem, hne⟩)
        · exact Or.inl hb
        · rcases List.mem_cons.mp hmem with h1 | h1
          · exfalso
            apply hne
            rw [h1]
            exact h
          · exact Or.inr ⟨kv, h1, hne⟩
    · rw [if_pos (by simpa using h)]
      have := owFold_true rest (true, Item.set m k0 v0) rfl
      rw [this]
      constructor
      · intro _
        exact Or.inr ⟨(k0, v0), List.mem_cons_self _ _, h⟩
      · intro _
        rfl

theorem raFold_true (ra : List String) : ∀ (acc : Bool × Item), acc.1 = true →
    (ra.foldl raStep acc).1 = true := by
  induction ra with
  | nil => intro acc h; simpa using h
  | cons k0 rest ih =>
    intro acc h
    simp only [List.foldl_cons]
    apply ih
    simp only [raStep]
    split
    · rfl
    · exact h

theorem raFold_get (ra : List String) : ∀ (acc : Bool × Item) (k : String),
    Item.get (ra.foldl raStep acc).2 k
      = if k ∈ ra then none else Item.get acc.2 k := by
  induction ra with
  | nil => intro acc k; simp
  | cons k0 rest ih =>
    intro acc k
    simp only [List.foldl_cons, raStep]
    by_cases hp : (Item.get acc.2 k0).isSome
    · rw [if_pos hp]
      rw [ih]
      by_cases hk : k ∈ rest
      · simp [hk]
      · rw [if_neg hk, Item.get_eraseKey]
        by_cases h : k = k0
        · simp [h, List.mem_cons]
        · simp [h, hk, List.mem_cons]
    · rw [if_neg hp]
      rw [ih]
      by_cases hk : k ∈ rest
      · simp [hk]
      · rw [if_neg hk]
        by_cases h : k = k0
        · subst h
          simp only [List.mem_cons, true_or, if_true]
          simpa using hp
        · simp [h, hk, List.mem_cons]

theorem raFold_changed (ra : List String) : ∀ (x : Item) (b : Bool),
    (ra.foldl raStep (b, x)).1 = true ↔
      b = true ∨ ∃ k, k ∈ ra ∧ (Item.get x k).isSome := by
  induction ra with
  | nil => intro x b; simp
  | cons k0 rest ih =>
    intro x b
    simp only [List.foldl_cons, raStep]
    by_cases hp : (Item.get x k0).isSome
    · rw [if_pos hp]
      rw [raFold_true rest (true, Item.eraseKey x k0) rfl]
      constructor
      · intro _
        exact Or.inr ⟨k0, List.mem_cons_self _ _, hp⟩
      · intro _
        rfl
    · rw [if_neg hp]
      rw [ih]
      constructor
      · rintro (hb | ⟨k, hmem, hs⟩)
        · exact Or.inl hb
        · exact Or.inr ⟨k, List.mem_cons_of_mem _ hmem, hs⟩
      · rintro (hb | ⟨k, hmem, hs⟩)
        · exact Or.inl hb
        · rcases List.mem_cons.mp hmem with h1 | h1
          · exact absurd (h1 ▸ hs) hp
          · exact Or.inr ⟨k, h1, hs⟩

theorem truthyOpt_some (v : Value) : truthyOpt (some v) = truthy v := rfl

theorem truthyOpt_none : truthyOpt none = false := rfl

theorem sendRequest_uri_shape (isOs : Bool) (data : Option PyData)
    (path : String) (proxy : Option String) (pfx site : String)
    (idArg : Option Value) (ovr : Option String) :
    ∃ suffix : String,
      (sendRequest isOs data path proxy pfx site idArg ovr).uri
        = proxySegment isOs proxy ++ pfx ++ site ++ path ++ suffix
      ∧ (suffix = "" ∨ ∃ i : String, suffix = "/" ++ i) := by
  cases data with
  | none =>
    by_cases hid : truthyOpt idArg = true
    · exact ⟨"/" ++ valueText (idArg.getD (.str "")),
        by simp [sendRequest, hid], Or.inr ⟨_, rfl⟩⟩
    · rw [Bool.not_eq_true] at hid
      exact ⟨"", by simp [sendRequest, hid], Or.inl rfl⟩
  | some pd =>
    cases pd with
    | str s =>
      by_cases hid : truthyOpt idArg = true
      · exact ⟨"/" ++ valueText (idArg.getD (.str "")),
          by simp [sendRequest, hid], Or.inr ⟨_, rfl⟩⟩
      · rw [Bool.not_eq_true] at hid
        exact ⟨"", by simp [sendRequest, hid], Or.inl rfl⟩
    | dict d =>
      by_cases h1 : truthyOpt idArg = true
      · exact ⟨"/" ++ valueText (idArg.getD (.str "")),
          by simp [sendRequest, h1], Or.inr ⟨_, rfl⟩⟩
      · rw [Bool.not_eq_true] at h1
        by_cases h2 : (Item.get d "_id").isSome
        · obtain ⟨i, hi⟩ := Option.isSome_iff_exists.mp h2
          by_cases ht : truthy i = true
          · by_cases h3 : (d.length == 1) = true
            · exact ⟨"/" ++ valueText i,
                by simp [sendRequest, h1, hi, h3, ht, truthyOpt_some],
                Or.inr ⟨_, rfl⟩⟩
            · rw [Bool.not_eq_true] at h3
              exact ⟨"/" ++ valueText i,
                by simp [sendRequest, h1, hi, h3, ht, truthyOpt_some],
                Or.inr ⟨_, rfl⟩⟩
          · rw [Bool.not_eq_true] at ht
            by_cases h3 : (d.length == 1) = true
            · exact ⟨"", by simp [sendRequest, h1, hi, h3, ht, truthyOpt_some],
                Or.inl rfl⟩
            · rw [Bool.not_eq_true] at h3
              exact ⟨"", by simp [sendRequest, h1, hi, h3, ht, truthyOpt_some],
                Or.inl rfl⟩
        · rw [Option.not_isSome_iff_eq_none] at h2
          exact ⟨"", by simp [sendRequest, h1, h2], Or.inl rfl⟩

/-! # Claim theorems -/

/-- Claim C1.  REFUTED BY THE CODE (code bug): the claim states that
`changed` is OR'd to true whenever a PUT, POST or DELETE was actually
sent, in particular that a run whose only operations are DELETEs of
matched items ends with `changed = true`.  In `ensure_item` the delete
loop executes `changed_items = True` instead of `changed = True`
(unifi.py line 565), so the DELETE below is actually sent
(`sent = [withId "id1"]`) yet the run reports `changed = false`. -/
theorem c1_delete_only_run_reports_changed_false :
    ensureItem [("name", Value.str "x")]
        [[("name", Value.str "x"), ("_id", Value.str "id1")]]
        .sAbsent none none false id false
      = Except.ok { sent := [.withId (Value.str "id1")],
                    results := [.id (Value.str "id1")],
                    changed := false } := by
  rfl

/-- Claim C2.  REFUTED BY THE CODE (code bug): the claim states that a
check-mode run computes the same create/update/delete decisions,
issues no mutating call, and reports `changed` as if the mutations had
happened.  The first two parts hold below (the check-mode run computes
the same pending update as the normal run and sends nothing), but
`changed = True` is only executed under `if not self.check_mode`
(unifi.py lines 558–560), so the check-mode run reports
`changed = false` while the same run without check mode sends the
update and reports `changed = true`. -/
theorem c2_check_mode_reports_changed_false :
    ensureItem [("name", Value.str "x"), ("a", Value.num 1)]
        [[("name", Value.str "x"), ("a", Value.num 2), ("_id", Value.str "i1")]]
        .sPresent none none true id false
      = Except.ok { sent := [],
                    results := [.item [("name", Value.str "x"),
                      ("a", Value.num 1), ("_id", Value.str "i1")]],
                    changed := false }
    ∧ ensureItem [("name", Value.str "x"), ("a", Value.num 1)]
        [[("name", Value.str "x"), ("a", Value.num 2), ("_id", Value.str "i1")]]
        .sPresent none none false id false
      = Except.ok { sent := [.withData [("name", Value.str "x"),
                      ("a", Value.num 1), ("_id", Value.str "i1")]],
                    results := [.item [("name", Value.str "x"),
                      ("a", Value.num 1), ("_id", Value.str "i1")]],
                    changed := true } :=
  ⟨rfl, rfl⟩

/-- Claim C8: for every call to `update_list`, each existing item
contributes to at most one of the three returned partitions.  The
three lists are filled under mutually exclusive branches of the
`state` match, so in every successful run at least two of the three
partitions are empty — an item can never appear in two of them. -/
theorem c8_partitions_are_exclusive (input : Item) (E : List Item)
    (state : StateParam) (cmp : Option (Item → Item → Bool))
    (pp : Option (Item → Item → Item))
    (ign chg : List Item) (del : List Value)
    (h : updateList input E state cmp pp = .ok (ign, chg, del)) :
    (chg = [] ∧ del = []) ∨ (ign = [] ∧ del = []) ∨ (ign = [] ∧ chg = []) := by
  cases state with
  | sIgnore | sNone =>
    simp only [updateList, Except.ok.injEq, Prod.mk.injEq] at h
    exact Or.inl ⟨h.2.1.symm, h.2.2.symm⟩
  | sPresent | sTrue =>
    simp only [updateList] at h
    split at h <;>
      simp only [Except.ok.injEq, Prod.mk.injEq] at h <;>
      exact Or.inr (Or.inl ⟨h.1.symm, h.2.2.symm⟩)
  | sAbsent | sFalse =>
    simp only [updateList] at h
    cases hm : (findMatches input E cmp).mapM (fun m =>
        match Item.get m "_id" with
        | some v => Except.ok v
        | none => Except.error "KeyError: _id") with
    | error e => rw [hm] at h; simp [Except.map] at h
    | ok ids =>
      rw [hm] at h
      simp only [Except.map, Except.ok.injEq, Prod.mk.injEq] at h
      exact Or.inr (Or.inr ⟨h.1.symm, h.2.1.symm⟩)
  | sOther s => simp [updateList] at h

/-- Witness for C8 at a concrete input: a run in state `absent` with a
single matched item yields an empty ignored and empty changed
partition. -/
theorem c8_partitions_are_exclusive_witness :
    (([] : List Item) = [] ∧ ([] : List Value) = [])
    ∨ (([[("name", Value.str "x"), ("_id", Value.str "i")]] : List Item) = []
        ∧ ([] : List Value) = [])
    ∨ (([[("name", Value.str "x"), ("_id", Value.str "i")]] : List Item) = []
        ∧ ([] : List Item) = []) :=
  c8_partitions_are_exclusive [("name", Value.str "x")]
    [[("name", Value.str "x"), ("_id", Value.str "i")]]
    .sIgnore none none
    [[("name", Value.str "x"), ("_id", Value.str "i")]] [] [] rfl

/-- Claim C3, counterexample: the claim states that data present
together with an id found as a `_id`-only singleton inside the data
gives PUT.  In the source (httpapi.py lines 150–154) such a singleton
payload is consumed — its `_id` becomes the request id and `data` is
set to `None` — so the request is a DELETE to the id-suffixed path,
not a PUT. -/
theorem c3_singleton_id_payload_gives_delete :
    (sendRequest false (some (.dict [("_id", Value.str "abc")]))
        "/rest/wlanconf" none "/api/s/" "default" none none).method
      = "DELETE"
    ∧ (sendRequest false (some (.dict [("_id", Value.str "abc")]))
        "/rest/wlanconf" none "/api/s/" "default" none none).uri
      = "/api/s/default/rest/wlanconf/abc"
    ∧ ("DELETE" : String) ≠ "PUT" :=
  ⟨rfl, rfl, by decide⟩

/-- Claim C3 as amended: the decision matrix of `send_request` equals
`claimMethod` — an explicit method override always wins; otherwise
data present with a truthy explicit id gives PUT; with no truthy
explicit id, an `_id`-only singleton payload is consumed for its id
and gives DELETE (GET when that id is falsy), while an `_id` embedded
alongside other keys gives PUT (POST when falsy); data present with no
resolvable id gives POST; data absent gives DELETE with a truthy id
and GET without. -/
theorem c3_method_matrix (isOs : Bool) (data : Option PyData)
    (path : String) (proxy : Option String) (pfx site : String)
    (idArg : Option Value) (ovr : Option String) :
    (sendRequest isOs data path proxy pfx site idArg ovr).method
      = claimMethod data idArg ovr := by
  cases ovr with
  | some m =>
    cases data with
    | none => simp [sendRequest, claimMethod]
    | some pd =>
      cases pd with
      | dict d => simp [sendRequest, claimMethod]
      | str s => simp [sendRequest, claimMethod]
  | none =>
    cases data with
    | none => simp [sendRequest, claimMethod, apply_ite Prod.fst]
    | some pd =>
      cases pd with
      | str s => simp [sendRequest, claimMethod, apply_ite Prod.fst]
      | dict d =>
        by_cases h1 : truthyOpt idArg
        · simp [sendRequest, claimMethod, h1, apply_ite Prod.fst]
        · rw [Bool.not_eq_true] at h1
          by_cases h2 : (Item.get d "_id").isSome
          · obtain ⟨i, hi⟩ := Option.isSome_iff_exists.mp h2
            by_cases h3 : (d.length == 1) = true
            · simp [sendRequest, claimMethod, h1, hi, h3,
                apply_ite Prod.fst, truthyOpt_some]
            · rw [Bool.not_eq_true] at h3
              simp [sendRequest, claimMethod, h1, hi, h3,
                apply_ite Prod.fst, truthyOpt_some]
          · rw [Option.not_isSome_iff_eq_none] at h2
            simp [sendRequest, claimMethod, h1, h2, apply_ite Prod.fst]

/-- Claim C6: the request URI is assembled as
`{proxy}{path_prefix}{site}{path}` (possibly id-suffixed); the proxy
segment `/proxy/{proxy}` is present exactly when the controller is the
unifi-os variant and a (truthy) proxy was requested; and the two
concrete example calls of the claim — with the source's default
`path_prefix='/api/s/'` and `site='default'` — produce
`POST /proxy/network/api/s/default/rest/wlanconf` on the OS variant
and `POST /api/s/default/rest/wlanconf` on the classic variant. -/
theorem c6_uri_assembly :
    (∀ (isOs : Bool) (data : Option PyData) (path : String)
       (proxy : Option String) (pfx site : String) (idArg : Option Value)
       (ovr : Option String),
       ∃ suffix : String,
         (sendRequest isOs data path proxy pfx site idArg ovr).uri
           = proxySegment isOs proxy ++ pfx ++ site ++ path ++ suffix
         ∧ (suffix = "" ∨ ∃ i : String, suffix = "/" ++ i))
    ∧ (∀ (isOs : Bool) (p : String),
         proxySegment isOs (some p)
           = if isOs && p != "" then "/proxy/" ++ p else "")
    ∧ (∀ (isOs : Bool), proxySegment isOs none = "")
    ∧ sendRequest true (some (.dict [("name", Value.str "x")]))
        "/rest/wlanconf" (some "network") "/api/s/" "default" none none
      = { method := "POST",
          uri := "/proxy/network/api/s/default/rest/wlanconf",
          body := some (.dict [("name", Value.str "x")]) }
    ∧ sendRequest false (some (.dict [("name", Value.str "x")]))
        "/rest/wlanconf" (some "network") "/api/s/" "default" none none
      = { method := "POST",
          uri := "/api/s/default/rest/wlanconf",
          body := some (.dict [("name", Value.str "x")]) } := by
  exact ⟨sendRequest_uri_shape, fun _ _ => rfl, fun _ => rfl, rfl, rfl⟩

/-- Claim C10: when both an explicit `_id` argument and a data payload
containing a `_id` field are supplied, the explicit argument wins —
the request is a PUT whose URI is suffixed with the explicit id — and
the payload is passed through unchanged, its `_id` field included
(httpapi.py lines 150–156: the extraction from the payload only runs
under `if not _id`). -/
theorem c10_explicit_id_wins (isOs : Bool) (d : Item) (path : String)
    (proxy : Option String) (pfx site : String) (iv : Value)
    (hid : truthy iv = true) (_hd : (Item.get d "_id").isSome = true) :
    sendRequest isOs (some (.dict d)) path proxy pfx site (some iv) none
      = { method := "PUT",
          uri := proxySegment isOs proxy ++ pfx ++ site ++ path
            ++ ("/" ++ valueText iv),
          body := some (.dict d) } := by
  simp [sendRequest, truthyOpt, hid]

/-- Witness for C10: with payload id `"payload"` and explicit id
`"explicit"`, the URI ends in `/explicit` and the body still carries
`_id = "payload"`. -/
theorem c10_explicit_id_wins_witness :
    truthy (Value.str "explicit") = true
    ∧ (Item.get [("_id", Value.str "payload"), ("name", Value.str "n")]
        "_id").isSome = true
    ∧ sendRequest false
        (some (.dict [("_id", Value.str "payload"), ("name", Value.str "n")]))
        "/rest/wlanconf" none "/api/s/" "default"
        (some (Value.str "explicit")) none
      = { method := "PUT",
          uri := proxySegment false none ++ "/api/s/" ++ "default"
            ++ "/rest/wlanconf" ++ ("/" ++ valueText (Value.str "explicit")),
          body := some (.dict [("_id", Value.str "payload"),
            ("name", Value.str "n")]) } :=
  ⟨rfl, rfl,
    c10_explicit_id_wins false _ "/rest/wlanconf" none "/api/s/" "default"
      (Value.str "explicit") rfl rfl⟩

/-- Claim C7: during the one-time variant probe, 400 and 401 are in
the masked list, so `handle_httperror` returns the response as a
non-fatal pass-through; the probe sets `is_unifi_os` solely from
whether the probe status equals 200; afterwards 400 and 401 are
removed again (back to the empty masked list), so any subsequent
response whose code the framework base class does not intercept
escalates to the raised error composed of the path, the status
(inside `str(exc)` = `HTTP Error {code}: {reason}`), and the response
body. -/
theorem c7_probe_masks_then_restores (st : ConnState) (s : Nat)
    (h0 : st.isUnifiOs = none) (h1 : st.maskedErrors = [])
    (superHandle : Nat → Option Bool) (code : Nat)
    (hsup : superHandle code = none) (path reason body : String) :
    handleHttpError (probeMasked st) superHandle 400 path reason body
      = .maskedPassThrough
    ∧ handleHttpError (probeMasked st) superHandle 401 path reason body
      = .maskedPassThrough
    ∧ (checkUnifiOs st s).isUnifiOs = some (s == 200)
    ∧ (checkUnifiOs st s).maskedErrors = []
    ∧ handleHttpError (checkUnifiOs st s).maskedErrors superHandle code
        path reason body
      = .raised ("Controller at " ++ path ++ " returned "
          ++ httpErrorStr code reason ++ body) := by
  have hc : checkUnifiOs st s
      = { isUnifiOs := some (s == 200), maskedErrors := [] } := by
    rw [checkUnifiOs, if_neg (by simp [h0])]
    simp [probeMasked, h1]
  refine ⟨?_, ?_, ?_, ?_, ?_⟩
  · simp [handleHttpError, probeMasked]
  · simp [handleHttpError, probeMasked]
  · rw [hc]
  · rw [hc]
  · rw [hc]
    simp [handleHttpError, hsup]

/-- Witness for C7: a fresh connection whose probe answers HTTP 401
does not raise, classifies the controller as classic
(`is_unifi_os = false`), unmasks 400/401 again, and a later 404 with
body escalates to the composed error. -/
theorem c7_probe_masks_then_restores_witness :
    handleHttpError (probeMasked initialConnState) (fun _ => none)
        400 "/p" "Bad Request" "b" = .maskedPassThrough
    ∧ handleHttpError (probeMasked initialConnState) (fun _ => none)
        401 "/p" "Bad Request" "b" = .maskedPassThrough
    ∧ (checkUnifiOs initialConnState 401).isUnifiOs = some (401 == 200)
    ∧ (checkUnifiOs initialConnState 401).maskedErrors = []
    ∧ handleHttpError (checkUnifiOs initialConnState 401).maskedErrors
        (fun _ => none) 404 "/p" "Bad Request" "b"
      = .raised ("Controller at " ++ "/p" ++ " returned "
          ++ httpErrorStr 404 "Bad Request" ++ "b") :=
  c7_probe_masks_then_restores initialConnState 401 rfl rfl
    (fun _ => none) 404 rfl "/p" "Bad Request" "b"

/-- Claim C4, counterexample: the claim asserts an id-equality
comparator as a third fallback after the custom comparator and
name-equality.  The source has no id comparator: below the custom
comparator matches nothing and the names differ, but the `_id` values
are equal; the claim would make the existing item a match, yet
`update_list` yields no match and treats the desired item as new
(state `present` creates it instead of updating the id-equal item). -/
theorem c4_no_id_fallback_counterexample :
    findMatches [("_id", Value.str "a"), ("name", Value.str "x")]
        [[("_id", Value.str "a"), ("name", Value.str "y")]]
        (some fun _ _ => false) = []
    ∧ Item.get [("_id", Value.str "a"), ("name", Value.str "y")] "_id"
        = Item.get [("_id", Value.str "a"), ("name", Value.str "x")] "_id"
    ∧ updateList [("_id", Value.str "a"), ("name", Value.str "x")]
        [[("_id", Value.str "a"), ("name", Value.str "y")]]
        .sPresent (some fun _ _ => false) none
      = .ok ([], [[("_id", Value.str "a"), ("name", Value.str "x")]], []) :=
  ⟨rfl, rfl, rfl⟩

/-- Claim C4 as amended: matching tries the explicit custom comparator
first when supplied and falls back to case-insensitive name-equality
when it yields no match — there is no id-equality comparator; the
first comparator yielding any match determines the whole match set
(so a name match can never be mixed with anything else); and when no
comparator matches, the item is treated as new (state `present`
creates the stripped desired item). -/
theorem c4_matching_order (input : Item) (E : List Item)
    (cmp : Option (Item → Item → Bool)) :
    findMatches input E cmp = specMatches input E cmp
    ∧ (specMatches input E cmp = [] →
        updateList input E .sPresent cmp none
          = .ok ([], [stripMissing input], [])) := by
  have h : findMatches input E cmp = specMatches input E cmp := by
    cases cmp with
    | none => simp [findMatches, specMatches, doCompare]
    | some f => simp [findMatches, specMatches, doCompare]
  refine ⟨h, fun hs => ?_⟩
  have hf : findMatches input E cmp = [] := h.trans hs
  simp [updateList, hf]

/-- Witness for C4's amended theorem: with an empty existing list the
custom comparator matches nothing, the name fallback matches nothing,
and the desired item is created as new. -/
theorem c4_matching_order_witness :
    updateList [("name", Value.str "x")] [] .sPresent
        (some fun _ _ => false) none
      = .ok ([], [[("name", Value.str "x")]], []) :=
  (c4_matching_order [("name", Value.str "x")] [] (some fun _ _ => false)).2 rfl

theorem insertLog_mem (e : LogEntry) (l : List LogEntry) (x : LogEntry) :
    x ∈ insertLog e l ↔ x = e ∨ x ∈ l := by
  induction l with
  | nil => simp [insertLog]
  | cons y ys ih =>
    simp only [insertLog]
    split
    · simp [List.mem_cons]
    · simp only [List.mem_cons, ih]
      tauto

theorem insertLog_pairwise (e : LogEntry) (l : List LogEntry)
    (h : l.Pairwise (fun a b => a.timestamp ≤ b.timestamp)) :
    (insertLog e l).Pairwise (fun a b => a.timestamp ≤ b.timestamp) := by
  induction l with
  | nil => simp [insertLog]
  | cons y ys ih =>
    rw [List.pairwise_cons] at h
    simp only [insertLog]
    split
    · next hle =>
      rw [List.pairwise_cons]
      refine ⟨?_, List.pairwise_cons.mpr h⟩
      intro a ha
      rcases List.mem_cons.mp ha with rfl | ha
      · exact hle
      · exact le_trans hle (h.1 a ha)
    · next hgt =>
      rw [List.pairwise_cons]
      refine ⟨?_, ih h.2⟩
      intro a ha
      rcases (insertLog_mem e ys a).mp ha with rfl | ha
      · exact Nat.le_of_lt (Nat.lt_of_not_le hgt)
      · exact h.1 a ha

theorem sortLogs_pairwise (l : List LogEntry) :
    (sortLogs l).Pairwise (fun a b => a.timestamp ≤ b.timestamp) := by
  induction l with
  | nil => simp [sortLogs]
  | cons x xs ih => exact insertLog_pairwise x _ ih

theorem filter_insertLog (e : LogEntry) (l : List LogEntry) (t : Nat) :
    (insertLog e l).filter (fun x => x.timestamp == t)
      = if e.timestamp == t
        then e :: l.filter (fun x => x.timestamp == t)
        else l.filter (fun x => x.timestamp == t) := by
  induction l with
  | nil =>
    simp only [insertLog, List.filter_cons, List.filter_nil]
  | cons y ys ih =>
    simp only [insertLog]
    split
    · next hle =>
      simp only [List.filter_cons]
    · next hgt =>
      have hy : y.timestamp < e.timestamp := Nat.lt_of_not_le hgt
      simp only [List.filter_cons, ih]
      by_cases het : e.timestamp = t
      · have hyt : (y.timestamp == t) = false :=
          beq_eq_false_iff_ne.mpr (by omega)
        have het' : (e.timestamp == t) = true := beq_iff_eq.mpr het
        simp [het', hyt]
      · have het' : (e.timestamp == t) = false := beq_eq_false_iff_ne.mpr het
        simp [het']

theorem filter_sortLogs (l : List LogEntry) (t : Nat) :
    (sortLogs l).filter (fun x => x.timestamp == t)
      = l.filter (fun x => x.timestamp == t) := by
  induction l with
  | nil => rfl
  | cons x xs ih =>
    simp only [sortLogs, filter_insertLog, ih, List.filter_cons]

/-- Claim C9: `Logger.join` returns the flattened entries as a stable
sort by timestamp: the result is sorted non-decreasingly, and for each
timestamp the sub-sequence of entries carrying it is exactly the
sub-sequence of the flattened input (which both makes the output a
permutation of the input and preserves the original relative order of
equal-timestamp entries); the claim's concrete example evaluates as
required, with timestamps converted to their display strings. -/
theorem c9_join_is_stable_sort :
    (∀ (logs : List (List LogEntry)),
        (joinEntries logs).Pairwise (fun a b => a.timestamp ≤ b.timestamp)
      ∧ ∀ t, (joinEntries logs).filter (fun e => e.timestamp == t)
            = logs.flatten.filter (fun e => e.timestamp == t))
    ∧ Logger.join (fun n => toString n)
        [[⟨2, "INFO", "b"⟩, ⟨1, "INFO", "a"⟩, ⟨1, "INFO", "c"⟩], []]
      = [⟨"1", "INFO", "a"⟩, ⟨"1", "INFO", "c"⟩, ⟨"2", "INFO", "b"⟩] := by
  refine ⟨fun logs => ⟨sortLogs_pairwise _, fun t => filter_sortLogs _ t⟩, ?_⟩
  rfl

theorem Item.isSome_get (d : Item) (k : String) :
    (Item.get d k).isSome = true ↔ k ∈ d.keys := by
  induction d with
  | nil => simp [Item.get, Item.keys]
  | cons kv rest ih =>
    obtain ⟨k0, v0⟩ := kv
    by_cases h : k0 = k
    · subst h; simp [Item.get, Item.keys]
    · have h' : ¬ k = k0 := fun hh => h hh.symm
      simp [Item.get, Item.keys, h, h', ih]

theorem raFold_changed_acc (ra : List String) (acc : Bool × Item) :
    (ra.foldl raStep acc).1 = true ↔
      acc.1 = true ∨ ∃ k, k ∈ ra ∧ (Item.get acc.2 k).isSome :=
  raFold_changed ra acc.2 acc.1

theorem owFold_changed_acc (d : Item) (acc : Bool × Item) :
    (d.foldl owStep acc).1 = true ↔
      acc.1 = true ∨ ∃ kv, kv ∈ d ∧ Item.get acc.2 kv.1 ≠ some kv.2 :=
  owFold_changed d acc.2 acc.1

/-- Claim C5: for state `present` with the default comparator and no
update hook, (i) no match creates the desired item with its
`__missing__` annotation stripped, (ii) with matches the changed-items
list is exactly the changed merges, and (iii) each merge removes every
required-absent field, keeps every (non-required-absent) field of the
desired item at the desired value, and flags a change exactly when
some desired field differed on the match or some required-absent field
was actually present on the match.  The `Nodup` hypothesis is the
Python dict invariant (unique keys). -/
theorem c5_present_merge (d : Item) (E : List Item)
    (hnd : (stripMissing d).keys.Nodup) :
    (findMatches d E none = [] →
       updateList d E .sPresent none none
         = .ok ([], [stripMissing d], []))
    ∧ (findMatches d E none ≠ [] →
       updateList d E .sPresent none none
         = .ok ([], (findMatches d E none).filterMap (fun m =>
             let r := updateItem (stripMissing d) m (getMissing d) none
             if r.1 then some r.2 else none), []))
    ∧ (∀ m, m ∈ findMatches d E none →
       (∀ k, k ∈ getMissing d →
         Item.get (updateItem (stripMissing d) m (getMissing d) none).2 k
           = none)
       ∧ (∀ k v, Item.get (stripMissing d) k = some v →
           ¬ k ∈ getMissing d →
           Item.get (updateItem (stripMissing d) m (getMissing d) none).2 k
             = some v)
       ∧ ((updateItem (stripMissing d) m (getMissing d) none).1 = true ↔
           (∃ k v, Item.get (stripMissing d) k = some v
             ∧ Item.get m k ≠ some v)
           ∨ (∃ k, k ∈ getMissing d ∧ Item.get m k ≠ none))) := by
  refine ⟨?_, ?_, ?_⟩
  · intro hm
    simp [updateList, hm]
  · intro hm
    cases hml : findMatches d E none with
    | nil => exact absurd hml hm
    | cons a as => simp [updateList, hml]
  · intro m _
    have hupd : updateItem (stripMissing d) m (getMissing d) none
        = (getMissing d).foldl raStep
            ((stripMissing d).foldl owStep (false, m)) := rfl
    refine ⟨?_, ?_, ?_⟩
    · intro k hk
      rw [hupd, raFold_get, if_pos hk]
    · intro k v hv hk
      rw [hupd, raFold_get, if_neg hk]
      exact owFold_get_mem _ _ k v hnd hv
    · rw [hupd, raFold_changed_acc, owFold_changed_acc]
      simp only [Bool.false_eq_true, false_or]
      constructor
      · rintro (⟨kv, hmem, hne⟩ | ⟨k, hk, hs⟩)
        · exact Or.inl ⟨kv.1, kv.2,
            Item.get_of_mem _ hnd _ _ hmem, hne⟩
        · by_cases hkd : k ∈ (stripMissing d).keys
          · obtain ⟨v, hv⟩ := Option.isSome_iff_exists.mp
              ((Item.isSome_get _ _).mpr hkd)
            by_cases hmk : Item.get m k = some v
            · exact Or.inr ⟨k, hk, by simp [hmk]⟩
            · exact Or.inl ⟨k, v, hv, hmk⟩
          · rw [owFold_get_notMem _ _ _ hkd] at hs
            refine Or.inr ⟨k, hk, ?_⟩
            intro hc
            rw [hc] at hs
            simp at hs
      · rintro (⟨k, v, hv, hne⟩ | ⟨k, hk, hne⟩)
        · exact Or.inl ⟨(k, v), Item.mem_of_get _ _ _ hv, hne⟩
        · refine Or.inr ⟨k, hk, ?_⟩
          by_cases hkd : k ∈ (stripMissing d).keys
          · obtain ⟨v, hv⟩ := Option.isSome_iff_exists.mp
              ((Item.isSome_get _ _).mpr hkd)
            rw [owFold_get_mem _ _ _ _ hnd hv]
            rfl
          · rw [owFold_get_notMem _ _ _ hkd]
            exact Option.ne_none_iff_isSome.mp hne

/-- Witness for C5 at a concrete input: no existing item matches, so
the desired item (annotation stripped) is created. -/
theorem c5_present_merge_witness :
    updateList [("name", Value.str "x")] [] .sPresent none none
      = .ok ([], [[("name", Value.str "x")]], []) :=
  (c5_present_merge [("name", Value.str "x")] [] (by decide)).1 rfl
